import Mathlib

/-!
# Verification of `newts-sizing`

A shallow embedding of the `newts-sizing` CLI (packages `sizing` and
`analysis`) together with proofs of the specified properties.

Floating-point quantities of the Go code are modelled as rationals (`ℚ`),
strings as lists of characters, Go maps over string keys either as
association lists with in-place update (property tables) or as multisets of
inserted keys (occurrence maps, whose value at a key is the multiplicity),
and the file system seen by the directory analyzer as an explicit list of
entries. Directory traversal is modelled as a fold over the entry list in
an arbitrary order; the two walk drivers of the repository (the
`filepath.Walk` one that propagates per-entry errors and the `godirwalk`
one whose error callback skips the entry) are modelled separately.
-/

namespace NewtsSizing

/-! ## The sizing sub-command (`cli/sizing/main.go` and the legacy variant) -/

/-- One gigabyte, i.e. `math.Pow(2, 30)` bytes, as used throughout the
sizing code. -/
def gb : ℚ := 2 ^ 30

/-- Function `roundUp` from the legacy sizing implementation:

```go
func roundUp(value float64) int {
    v := math.Ceil(value)
    if value-v > 0 {
        v++
    }
    return int(v)
}
```

`math.Ceil` is modelled by `Int.ceil`; since the intermediate `v` is
integral, the final `int(v)` cast is exact. -/
def roundUp (value : ℚ) : ℤ :=
  let v : ℤ := ⌈value⌉
  if value - v > 0 then v + 1 else v

/-- The CLI flag values consumed by `calculate` in `cli/sizing/main.go`.
A flag left unset by the user reads as `0`. -/
structure SizeArgs where
  ttl : ℚ
  interval : ℚ
  sampleSize : ℚ
  replicationFactor : ℚ
  diskOverhead : ℚ
  totalMetrics : ℚ
  injectionRate : ℚ
  diskSpace : ℚ
deriving DecidableEq

/-- Every quantity printed by `calculate` in `cli/sizing/main.go`.
`numberOfNodes` is the value handed to the final
`Printf("... would be %.2f instances")` (the raw float, formatted to two
decimals); `belowRF` records which of the two final messages is chosen. -/
structure SizeReport where
  totalMetrics : ℚ
  injectionRate : ℚ
  totalSamplesPerMetric : ℚ
  availDiskPerNode : ℚ
  sampleCapacityInBytes : ℚ
  clusterUsableDiskSpace : ℚ
  numberOfNodes : ℚ
  dailyGrowPerNode : ℚ
  belowRF : Bool
deriving DecidableEq

/-- The conflict message produced by `calculate`. -/
def conflictMsg : String :=
  "Please especify either the total number of metrics or the injection rate but not both"

/-- The function `calculate` from `cli/sizing/main.go` (the current sizing
command). Returns the conflict error when both `--injection-rate` and
`--total-metrics` are positive, otherwise the full printed report. -/
def calculate (a : SizeArgs) : Except String SizeReport :=
  if a.injectionRate > 0 ∧ a.totalMetrics > 0 then
    .error conflictMsg
  else
    let totalMetrics :=
      if a.injectionRate > 0 then a.injectionRate * a.interval * 60 else a.totalMetrics
    let injectionRate :=
      if a.injectionRate > 0 then a.injectionRate else a.totalMetrics / (a.interval * 60)
    let percentageAvailable := 1 - a.diskOverhead / 100
    let totalDiskPerNodeInBytes := gb * a.diskSpace
    let availDiskPerNode := a.diskSpace * percentageAvailable
    let totalSamplesPerMetric := (a.ttl * 86400) / (a.interval * 60)
    let sampleCapacityInBytes := totalMetrics * totalSamplesPerMetric
    let clusterUsableDiskSpace := sampleCapacityInBytes * a.sampleSize
    let numberOfNodes :=
      (clusterUsableDiskSpace * a.replicationFactor)
        / (totalDiskPerNodeInBytes * percentageAvailable)
    let dailyGrowPerNode :=
      (totalMetrics * (a.replicationFactor / numberOfNodes) * (86400 / (a.interval * 60)))
        * a.sampleSize / gb
    .ok {
      totalMetrics := totalMetrics
      injectionRate := injectionRate
      totalSamplesPerMetric := totalSamplesPerMetric
      availDiskPerNode := availDiskPerNode
      sampleCapacityInBytes := sampleCapacityInBytes
      clusterUsableDiskSpace := clusterUsableDiskSpace
      numberOfNodes := numberOfNodes
      dailyGrowPerNode := dailyGrowPerNode
      belowRF := numberOfNodes < a.replicationFactor }

/-- The CLI flag values of the legacy sizing implementation (the variant of
`calculate` that calls `roundUp`); there `--total-metrics` is required and
there is no `--injection-rate`. -/
structure OldSizeArgs where
  ttl : ℚ
  interval : ℚ
  sampleSize : ℚ
  replicationFactor : ℚ
  diskOverhead : ℚ
  metricsCapacity : ℚ
  diskSpace : ℚ
deriving DecidableEq

/-- The quantities printed by the legacy `calculate`; `numberOfNodes` is the
integer produced by `roundUp` and printed as the recommended number of
Cassandra instances. -/
structure OldSizeReport where
  totalSamplesPerMetric : ℚ
  availBytesPerNode : ℚ
  rawNumberOfNodes : ℚ
  numberOfNodes : ℤ
  calculatedCapacity : ℚ
deriving DecidableEq

/-- The legacy `calculate` (the variant using `roundUp`). -/
def calculateOld (a : OldSizeArgs) : OldSizeReport :=
  let totalSamplesPerMetric := (a.ttl * 86400) / (a.interval * 60)
  let availBytesPerNode := a.diskSpace * gb * (1 - a.diskOverhead / 100)
  let rawNumberOfNodes :=
    (totalSamplesPerMetric * a.metricsCapacity * a.sampleSize * a.replicationFactor)
      / availBytesPerNode
  let numberOfNodes := roundUp rawNumberOfNodes
  let calculatedCapacity :=
    (availBytesPerNode * (numberOfNodes : ℚ))
      / (totalSamplesPerMetric * a.sampleSize * a.replicationFactor)
  { totalSamplesPerMetric := totalSamplesPerMetric
    availBytesPerNode := availBytesPerNode
    rawNumberOfNodes := rawNumberOfNodes
    numberOfNodes := numberOfNodes
    calculatedCapacity := calculatedCapacity }

/-- The quantity `rawNodeCount` exactly as the specification words it
(steps 1-6): `rawNodeCount = (clusterUsableBytes * replicationFactor) /
(diskSpaceGB * 2^30 * (1 - overheadPercent/100))`, with `totalMetrics`
first derived from the injection rate when the latter is supplied. -/
def specRawNodeCount (a : SizeArgs) : ℚ :=
  let totalMetrics :=
    if a.injectionRate > 0 then a.injectionRate * a.interval * 60 else a.totalMetrics
  let samplesPerMetric := (a.ttl * 86400) / (a.interval * 60)
  let sampleCapacityBytes := totalMetrics * samplesPerMetric
  let clusterUsableBytes := sampleCapacityBytes * a.sampleSize
  (clusterUsableBytes * a.replicationFactor)
    / (a.diskSpace * 2 ^ 30 * (1 - a.diskOverhead / 100))

/-- The report produced by `calculate`, or a zero report when it errors. -/
def reportOf (r : Except String SizeReport) : SizeReport :=
  match r with
  | .ok rep => rep
  | .error _ =>
    { totalMetrics := 0, injectionRate := 0, totalSamplesPerMetric := 0
      availDiskPerNode := 0, sampleCapacityInBytes := 0
      clusterUsableDiskSpace := 0, numberOfNodes := 0, dailyGrowPerNode := 0
      belowRF := false }

/-- Whether `calculate` returned the conflict error. -/
def isConflict (r : Except String SizeReport) : Bool :=
  match r with
  | .ok _ => false
  | .error _ => true

/-- The sizing example of the specification: ttl 365 days, 5-minute
interval, 18-byte samples, replication factor 2, 15% overhead, 100000
metrics, 500 GB of disk per node, no injection rate. -/
def exampleArgs : SizeArgs :=
  { ttl := 365, interval := 5, sampleSize := 18, replicationFactor := 2
    diskOverhead := 15, totalMetrics := 100000, injectionRate := 0
    diskSpace := 500 }

/-! ## Property-file parsing (`getProperties` in the analysis package) -/

/-- Strings of the Go code, modelled as lists of characters. -/
abbrev Str := List Char

/-- Go `strings.Split(s, "=")`: the fragments of `s` around every
occurrence of the equals sign (`strings.Split("", "=")` is `[""]`). -/
def splitEq : Str → List Str
  | [] => [[]]
  | c :: cs =>
    if c = '=' then [] :: splitEq cs
    else
      match splitEq cs with
      | [] => [[c]]
      | h :: t => (c :: h) :: t

/-- One line of a property file, as `getProperties` handles it: the body of
`if data := strings.Split(scanner.Text(), "="); len(data) == 2` — the line
yields the pair `(data[0], data[1])` if the split has exactly two
fragments, and nothing otherwise. -/
def parseLine (line : Str) : Option (Str × Str) :=
  match splitEq line with
  | [k, v] => some (k, v)
  | _ => none

/-- Assignment `properties[k] = v` on a Go map modelled as an association
list: replace the value at an existing key, otherwise append the pair. -/
def updTable (t : List (Str × Str)) (k v : Str) : List (Str × Str) :=
  match t with
  | [] => [(k, v)]
  | (k0, v0) :: rest => if k0 = k then (k, v) :: rest else (k0, v0) :: updTable rest k v

/-- Go map lookup on the association-list model. -/
def tlookup (t : List (Str × Str)) (k : Str) : Option Str :=
  match t with
  | [] => none
  | (k0, v0) :: rest => if k0 = k then some v0 else tlookup rest k

/-- Insert a list of parsed key-value pairs into a table, one `updTable`
per pair. -/
def foldIns (t : List (Str × Str)) (ps : List (Str × Str)) : List (Str × Str) :=
  ps.foldl (fun acc p => updTable acc p.1 p.2) t

/-- The function `getProperties` of the analysis package: the content of a
file (`none` when `os.Open` fails, e.g. the file is missing) parsed line by
line; a line splitting into exactly two fragments around the equals sign
stores a pair, every other line is ignored. -/
def getProperties (content : Option (List Str)) : List (Str × Str) :=
  match content with
  | none => []
  | some lines =>
    lines.foldl
      (fun t line =>
        match parseLine line with
        | some (k, v) => updTable t k v
        | none => t)
      []

/-! ## Path handling and file classification -/

/-- Literal-prefix test: `litPre pat s` holds when `pat` is an initial
segment of `s`. -/
def litPre : Str → Str → Bool
  | [], _ => true
  | _ :: _, [] => false
  | a :: as, b :: bs => a == b && litPre as bs

/-- Whether the first character of `s` is `c`. -/
def headIs (s : Str) (c : Char) : Bool :=
  match s with
  | [] => false
  | d :: _ => d == c

/-- The regular expression `\.(rrd|jrb)$` (`rrdRegExp.MatchString`): the
path ends in one of the two recognized extensions. -/
def isRRD (p : Str) : Bool :=
  litPre (".rrd".toList.reverse) p.reverse || litPre (".jrb".toList.reverse) p.reverse

/-- `rrdRegExp.ReplaceAllString(s, "")`: strip a trailing `.rrd`/`.jrb`
extension (the anchored pattern can match at most once). -/
def stripRRD (s : Str) : Str :=
  if isRRD s then s.take (s.length - 4) else s

/-- Go `filepath.Base` for the clean, slash-separated paths the analyzer
visits: everything after the last slash. -/
def baseName (p : Str) : Str :=
  (p.reverse.takeWhile (fun c => c != '/')).reverse

/-- Go `filepath.Dir` for clean relative paths: everything before the last
slash, or `.` when there is none. -/
def dirName (p : Str) : Str :=
  if p.any (fun c => c = '/') then ((p.reverse.dropWhile (fun c => c != '/')).drop 1).reverse
  else ['.']

/-- The constant `dsProperties`. -/
def dsPropertiesName : Str := "ds.properties".toList

/-- The constant `stringsProperties`. -/
def stringsPropertiesName : Str := "strings.properties".toList

/-- The sidecar path `fmt.Sprintf("%s/%s", filepath.Dir(path), dsProperties)`. -/
def dsPath (p : Str) : Str := dirName p ++ '/' :: dsPropertiesName

/-- The sidecar path built from `stringsProperties` the same way. -/
def stringsPath (p : Str) : Str := dirName p ++ '/' :: stringsPropertiesName

/-! ## The two path-classification regular expressions

`nodeRegExp = snmp\/(\d+|fs\/[^\/]+\/[^\/]+)\/` and
`intfRegExp = response\/([\d.]+)\/`. `FindStringSubmatch` returns the
leftmost match; both matchers below scan start positions left to right and
at each position match the literal, then the capture group (alternatives in
order, each a greedy repetition whose elements can never equal the
following slash, so only the maximal run can complete the match), then the
closing slash. -/

/-- The class `\d` of the Go regexp engine: an ASCII digit. -/
def digitc (c : Char) : Bool := c.isDigit

/-- The class `[\d.]`: an ASCII digit or a dot. -/
def intfc (c : Char) : Bool := c.isDigit || c == '.'

/-- The literal `snmp/`. -/
def snmpLit : Str := "snmp/".toList

/-- The literal `response/`. -/
def respLit : Str := "response/".toList

/-- The literal `fs/`. -/
def fsLit : Str := "fs/".toList

/-- The second alternative `fs\/[^\/]+\/[^\/]+` of the node capture group,
followed by the closing `\/` of the pattern. Returns the captured group. -/
def tryFsGroup (r : Str) : Option Str :=
  if litPre fsLit r then
    let r1 := r.drop 3
    let s1 := r1.takeWhile (fun c => c != '/')
    let r2 := r1.drop s1.length
    if s1 ≠ [] ∧ headIs r2 '/' = true then
      let r3 := r2.drop 1
      let s2 := r3.takeWhile (fun c => c != '/')
      let r4 := r3.drop s2.length
      if s2 ≠ [] ∧ headIs r4 '/' = true then some (fsLit ++ s1 ++ '/' :: s2) else none
    else none
  else none

/-- The node capture group `(\d+|fs\/[^\/]+\/[^\/]+)` followed by the
closing `\/`, tried at a fixed position right after the `snmp/` literal. -/
def tryNodeGroup (r : Str) : Option Str :=
  let ds := r.takeWhile digitc
  if ds ≠ [] ∧ headIs (r.drop ds.length) '/' = true then some ds
  else tryFsGroup r

/-- A full `nodeRegExp` match attempt anchored at the start of `l`. -/
def tryNodeAt (l : Str) : Option Str :=
  if litPre snmpLit l then tryNodeGroup (l.drop 5) else none

/-- `nodeRegExp.FindStringSubmatch(path)` restricted to its capture group:
the group of the leftmost match, if any. -/
def nodeFind : Str → Option Str
  | [] => none
  | c :: cs =>
    match tryNodeAt (c :: cs) with
    | some g => some g
    | none => nodeFind cs

/-- A full `intfRegExp` match attempt anchored at the start of `l`. -/
def tryIntfAt (l : Str) : Option Str :=
  if litPre respLit l then
    let r := l.drop 9
    let ds := r.takeWhile intfc
    if ds ≠ [] ∧ headIs (r.drop ds.length) '/' = true then some ds else none
  else none

/-- `intfRegExp.FindStringSubmatch(path)` restricted to its capture group:
the group of the leftmost match, if any. -/
def intfFind : Str → Option Str
  | [] => none
  | c :: cs =>
    match tryIntfAt (c :: cs) with
    | some g => some g
    | none => intfFind cs

/-! ## The analysis sub-command -/

/-- One file-system entry as the walk presents it: its path, whether it is
a directory, the stat data (`size`, `modTime`), whether visiting it fails
(`statErr`, e.g. permission denied on `lstat`), and its text lines. -/
structure Ent where
  path : Str
  isDir : Bool
  size : ℤ
  modTime : ℤ
  statErr : Bool
  lines : List Str
deriving DecidableEq

/-- The file system: the list of entries under the RRD directory. -/
abbrev FS := List Ent

/-- Opening a file by path (`os.Open` followed by line scanning): the lines
of the named entry, or `none` when no such file exists. -/
def readFile (fs : FS) (p : Str) : Option (List Str) :=
  match fs.find? (fun e => e.path == p) with
  | some e => if e.isDir then none else some e.lines
  | none => none

/-- The function `countNumericMetrics` of the analysis package: `1` in
single-metric mode; otherwise the number of values of the `ds.properties`
table of the directory of `path` that equal the base name of `path` with
its recognized extension stripped. -/
def countNumericMetrics (fs : FS) (path : Str) (singleMetric : Bool) : ℕ :=
  if singleMetric then 1
  else
    let resource := stripRRD (baseName path)
    let properties := getProperties (readFile fs (dsPath path))
    properties.foldl (fun count kv => if kv.2 = resource then count + 1 else count) 0

/-- The function `countStringMetrics` of the analysis package: the size of
the `strings.properties` table of the directory of `path`. -/
def countStringMetrics (fs : FS) (path : Str) : ℕ :=
  (getProperties (readFile fs (stringsPath path))).length

/-- The statistics accumulator (the local counters of `analyze`, equally
the `metrics` struct of the `godirwalk` variant). The Go maps
`map[string]int` used purely via `m[k]++` are modelled as the multiset of
inserted keys: the count at a key is the multiplicity, the number of
distinct keys is the map length. -/
structure Stats where
  numOfGroups : ℕ
  numOfNumericMetrics : ℕ
  numOfStringMetrics : ℕ
  totalSizeInBytes : ℤ
  nodeMap : Multiset Str
  interfaceMap : Multiset Str
  resourceMap : Multiset Str
deriving DecidableEq

/-- The freshly initialized accumulator. -/
def emptyStats : Stats :=
  { numOfGroups := 0, numOfNumericMetrics := 0, numOfStringMetrics := 0
    totalSizeInBytes := 0, nodeMap := 0, interfaceMap := 0, resourceMap := 0 }

/-- The walk callback of `analyze`, applied to one successfully visited
entry: skip directories and files not strictly newer than the start date;
for an RRD/JRB file bump the group counter (unless in single-metric mode),
the total size, the numeric-metric total, the resource occurrence map and,
on a regexp match, the node and interface occurrence maps; for a file named
`strings.properties` bump the string-metric total. -/
def stepEnt (fs : FS) (singleMetric : Bool) (startDate : ℤ) (st : Stats) (e : Ent) : Stats :=
  if e.isDir then st
  else if ¬ e.modTime > startDate then st
  else
    let st1 :=
      if isRRD e.path then
        let a := if ¬ singleMetric then { st with numOfGroups := st.numOfGroups + 1 } else st
        let b := { a with totalSizeInBytes := a.totalSizeInBytes + e.size }
        let c :=
          { b with
            numOfNumericMetrics :=
              b.numOfNumericMetrics + countNumericMetrics fs e.path singleMetric }
        let d := { c with resourceMap := c.resourceMap + {baseName e.path} }
        let r :=
          match nodeFind e.path with
          | some n => { d with nodeMap := d.nodeMap + {n} }
          | none => d
        match intfFind e.path with
        | some i => { r with interfaceMap := r.interfaceMap + {i} }
        | none => r
      else st
    if baseName e.path = stringsPropertiesName then
      { st1 with
        numOfStringMetrics := st1.numOfStringMetrics + countStringMetrics fs e.path }
    else st1

/-- One visit of the `godirwalk` walk of the `metrics`-struct variant of
`analyze`: the error callback answers `SkipNode`, so an entry whose visit
fails is skipped and the traversal continues with the rest. -/
def skipStep (fs : FS) (singleMetric : Bool) (startDate : ℤ) (st : Stats) (e : Ent) : Stats :=
  if e.statErr then st else stepEnt fs singleMetric startDate st e

/-- The `godirwalk` walk: fold the per-entry visit, skipping failing
entries, over the traversal order. -/
def walkSkip (fs : FS) (singleMetric : Bool) (startDate : ℤ) (es : List Ent) : Stats :=
  es.foldl (skipStep fs singleMetric startDate) emptyStats

/-- The `filepath.Walk` of `cli/analysis/main.go`: the callback receives
the per-entry error and returns it (`if err != nil { return err }`), which
makes `filepath.Walk` abort the whole walk with that error. -/
def walkAbort (fs : FS) (singleMetric : Bool) (startDate : ℤ) :
    List Ent → Stats → Except Str Stats
  | [], st => .ok st
  | e :: es, st =>
    if e.statErr then .error e.path
    else walkAbort fs singleMetric startDate es (stepEnt fs singleMetric startDate st e)

/-- The function `analyze` of `cli/analysis/main.go` (statistics part):
walk all entries from the fresh accumulator, aborting on the first
per-entry error. -/
def analyzeCli (fs : FS) (singleMetric : Bool) (startDate : ℤ) (es : List Ent) :
    Except Str Stats :=
  walkAbort fs singleMetric startDate es emptyStats

/-- Whether a successfully visited entry reaches the round-robin branch of
the callback: a regular file strictly newer than the start date carrying a
recognized extension. -/
def isMatch (startDate : ℤ) (e : Ent) : Bool :=
  !e.isDir && decide (e.modTime > startDate) && isRRD e.path

/-- Whether an entry is a matched round-robin file of the walk: visited
without error and reaching the round-robin branch. -/
def matchedRRD (startDate : ℤ) (e : Ent) : Bool :=
  !e.statErr && isMatch startDate e

/-- The node-occurrence contribution of one path: one occurrence of the
captured node identifier when the node pattern matches, none otherwise. -/
def nodeOcc (p : Str) : Multiset Str :=
  match nodeFind p with
  | some n => {n}
  | none => 0

/-- The interface-occurrence contribution of one path. -/
def intfOcc (p : Str) : Multiset Str :=
  match intfFind p with
  | some i => {i}
  | none => 0

/-- The delta one entry contributes to the accumulator: the entry processed
from the fresh accumulator. -/
def deltaOf (fs : FS) (singleMetric : Bool) (startDate : ℤ) (e : Ent) : Stats :=
  stepEnt fs singleMetric startDate emptyStats e

/-- Pointwise sum of two accumulators. -/
def addStats (s d : Stats) : Stats :=
  { numOfGroups := s.numOfGroups + d.numOfGroups
    numOfNumericMetrics := s.numOfNumericMetrics + d.numOfNumericMetrics
    numOfStringMetrics := s.numOfStringMetrics + d.numOfStringMetrics
    totalSizeInBytes := s.totalSizeInBytes + d.totalSizeInBytes
    nodeMap := s.nodeMap + d.nodeMap
    interfaceMap := s.interfaceMap + d.interfaceMap
    resourceMap := s.resourceMap + d.resourceMap }

/-- The number-of-entries count the specification describes for claim C6:
how many entries of the `ds.properties` table of the directory of `path`
hold a value equal to the base name of `path` with the extension
stripped. -/
def specNumericCount (fs : FS) (path : Str) : ℕ :=
  ((getProperties (readFile fs (dsPath path))).filter
    (fun kv => kv.2 == stripRRD (baseName path))).length

/-- The value of the last well-formed line with key `k`, if any: the value
a Go map holds after all assignments for `k`. -/
def lastVal (ps : List (Str × Str)) (k : Str) : Option Str :=
  ((ps.filter (fun p => p.1 == k)).map Prod.snd).getLast?

/-! ## Concrete inputs used by counterexamples and witnesses -/

/-- The `ds.properties` content of the specification example for C6. -/
def dsLines : List Str := ["ifHcInOctets=ifIn".toList, "ifHcOutOctets=ifIn".toList]

/-- The sidecar `ds.properties` entry next to `ifIn.rrd`. -/
def entDs : Ent :=
  { path := "a/ds.properties".toList, isDir := false, size := 40, modTime := 5
    statErr := false, lines := dsLines }

/-- The matched round-robin file `a/ifIn.rrd`. -/
def entIfIn : Ent :=
  { path := "a/ifIn.rrd".toList, isDir := false, size := 64, modTime := 5
    statErr := false, lines := [] }

/-- A `strings.properties` entry with a duplicated key among its three
well-formed lines. -/
def entStr : Ent :=
  { path := "a/strings.properties".toList, isDir := false, size := 12, modTime := 5
    statErr := false, lines := ["a=1".toList, "a=2".toList, "b=3".toList] }

/-- A file whose visit fails (for instance `lstat` returns permission
denied). -/
def entBad : Ent :=
  { path := "share/rrd/snmp/9/bad.rrd".toList, isDir := false, size := 50, modTime := 5
    statErr := true, lines := [] }

/-- A healthy matched round-robin file. -/
def entGood : Ent :=
  { path := "share/rrd/snmp/7/x.rrd".toList, isDir := false, size := 100, modTime := 5
    statErr := false, lines := [] }

/-- A matched file under `snmp/123/`. -/
def entNode : Ent :=
  { path := "x/snmp/123/node.rrd".toList, isDir := false, size := 1, modTime := 5
    statErr := false, lines := [] }

/-- A matched file under `response/10.0.0.1/`. -/
def entResp : Ent :=
  { path := "x/response/10.0.0.1/ifIn.rrd".toList, isDir := false, size := 1, modTime := 5
    statErr := false, lines := [] }

/-- The file system of the C6 example. -/
def fsC6 : FS := [entDs, entIfIn]

/-- The file system of the C3 failing input: one bad entry, one good one. -/
def fs3 : FS := [entBad, entGood]

/-- A small file system exercising all classification branches. -/
def fsW : FS := [entDs, entIfIn, entStr]

/-! ## Theorems: the sizing sub-command -/

/-- The spurious extra increment in `roundUp` never fires, because the
value is at most its ceiling: `roundUp` is exactly the ceiling. -/
theorem roundUp_eq_ceil (q : ℚ) : roundUp q = ⌈q⌉ := by
  simp [roundUp, sub_pos, not_lt.2 (Int.le_ceil q)]

/-- On every non-conflicting input, `calculate` succeeds and the value it
prints as the number of instances is exactly the raw node count of the
specification (steps 1-6), with no rounding applied. -/
theorem calculate_nodes_eq_raw (a : SizeArgs)
    (h : ¬(a.injectionRate > 0 ∧ a.totalMetrics > 0)) :
    isConflict (calculate a) = false ∧
      (reportOf (calculate a)).numberOfNodes = specRawNodeCount a := by
  refine ⟨by simp [calculate, isConflict, if_neg h], ?_⟩
  simp only [calculate, specRawNodeCount, if_neg h, reportOf, gb]
  ring

/-- On the sizing example of the specification the raw node count is the
non-integral rational `3695625 / 4456448` (about `0.8293`). -/
theorem exampleRaw : specRawNodeCount exampleArgs = 3695625 / 4456448 := by
  norm_num [specRawNodeCount, exampleArgs]

/-- Claim C8: `roundUp` behaves as ordinary ceiling for every input:
`roundUp 4 = 4`, `roundUp 4.1 = 5`, `roundUp 3.999999 = 4`,
exactly-integral inputs map to themselves, and the conditional extra
increment after the ceiling never changes the result
(`roundUp q = ⌈q⌉` for all `q`). -/
theorem C8_roundUp_is_ceiling :
    roundUp (4 : ℚ) = 4 ∧ roundUp (41 / 10 : ℚ) = 5 ∧
      roundUp (3999999 / 1000000 : ℚ) = 4 ∧
      (∀ n : ℤ, roundUp (n : ℚ) = n) ∧ (∀ q : ℚ, roundUp q = ⌈q⌉) := by
  refine ⟨?_, ?_, ?_, fun n => ?_, roundUp_eq_ceil⟩
  · rw [roundUp_eq_ceil]; norm_num
  · rw [roundUp_eq_ceil]; norm_num [Int.ceil_eq_iff]
  · rw [roundUp_eq_ceil]; norm_num [Int.ceil_eq_iff]
  · rw [roundUp_eq_ceil]; exact Int.ceil_intCast n

/-- Claim C2: the capacity estimator fails if and only if both
`--injection-rate` and `--total-metrics` are positive, in which case it
returns exactly the one conflict error and no part of the report; in every
other case it returns the full computed report. -/
theorem C2_conflict_error_iff (a : SizeArgs) :
    (calculate a = .error conflictMsg ↔ (a.injectionRate > 0 ∧ a.totalMetrics > 0)) ∧
      ((∃ r, calculate a = .ok r) ↔ ¬(a.injectionRate > 0 ∧ a.totalMetrics > 0)) := by
  by_cases h : a.injectionRate > 0 ∧ a.totalMetrics > 0 <;>
    simp [calculate, h]

/-- Claim C1, counterexample: on the sizing example of the specification
the node count reported by the current sizing command is the raw
fractional value, which is not `roundUp` of the raw node count. -/
theorem C1_raw_not_ceiling_counterexample :
    (reportOf (calculate exampleArgs)).numberOfNodes ≠
      ((roundUp (specRawNodeCount exampleArgs) : ℤ) : ℚ) := by
  have hr : ¬(exampleArgs.injectionRate > 0 ∧ exampleArgs.totalMetrics > 0) := by
    norm_num [exampleArgs]
  have h1 : (reportOf (calculate exampleArgs)).numberOfNodes = 3695625 / 4456448 := by
    rw [(calculate_nodes_eq_raw exampleArgs hr).2, exampleRaw]
  have h2 : roundUp (specRawNodeCount exampleArgs) = 1 := by
    rw [exampleRaw, roundUp_eq_ceil]
    norm_num [Int.ceil_eq_iff]
  rw [h1, h2]
  norm_num

/-- Claim C1, amended: the legacy sizing implementation reports
`roundUp(rawNodeCount) = ⌈rawNodeCount⌉` as the recommended node count,
while the current sizing command reports the raw fractional node count
itself (formatted to two decimals), not its ceiling. -/
theorem C1_reported_node_count :
    (∀ a : OldSizeArgs,
        (calculateOld a).numberOfNodes = ⌈(calculateOld a).rawNumberOfNodes⌉) ∧
      (∀ a : SizeArgs, ¬(a.injectionRate > 0 ∧ a.totalMetrics > 0) →
        isConflict (calculate a) = false ∧
          (reportOf (calculate a)).numberOfNodes = specRawNodeCount a) :=
  ⟨fun _ => roundUp_eq_ceil _, calculate_nodes_eq_raw⟩

/-- Witness for claim C1 at the sizing example of the specification. -/
theorem C1_reported_node_count_witness :
    ¬(exampleArgs.injectionRate > 0 ∧ exampleArgs.totalMetrics > 0) ∧
      (isConflict (calculate exampleArgs) = false ∧
        (reportOf (calculate exampleArgs)).numberOfNodes = specRawNodeCount exampleArgs) := by
  have h : ¬(exampleArgs.injectionRate > 0 ∧ exampleArgs.totalMetrics > 0) := by
    norm_num [exampleArgs]
  exact ⟨h, C1_reported_node_count.2 exampleArgs h⟩

/-! ## Theorems: property-file parsing -/

/-- The split of a line never has zero fragments. -/
theorem splitEq_ne_nil (l : Str) : splitEq l ≠ [] := by
  cases l with
  | nil => simp [splitEq]
  | cons c cs =>
    simp only [splitEq]
    split
    · simp
    · split <;> simp

/-- A line without an equals sign splits into itself alone. -/
theorem splitEq_count_zero {l : Str} (h : l.count '=' = 0) : splitEq l = [l] := by
  induction l with
  | nil => rfl
  | cons c cs ih =>
    rw [List.count_cons] at h
    by_cases hc : c = '='
    · subst hc; simp at h
    · have hcs : cs.count '=' = 0 := by simpa [hc] using h
      simp [splitEq, hc, ih hcs]

/-- The number of fragments is one more than the number of equals signs. -/
theorem length_splitEq (l : Str) : (splitEq l).length = l.count '=' + 1 := by
  induction l with
  | nil => rfl
  | cons c cs ih =>
    by_cases hc : c = '='
    · subst hc; simp [splitEq, List.count_cons, ih]
    · rcases hsp : splitEq cs with _ | ⟨h1, t⟩
      · exact absurd hsp (splitEq_ne_nil cs)
      · rw [hsp] at ih
        simp only [splitEq, if_neg hc, hsp, List.count_cons, List.length_cons] at ih ⊢
        simpa [hc] using ih

/-- A line with exactly one equals sign splits into the text before the
first equals sign and the text after it. -/
theorem splitEq_count_one {l : Str} (h : l.count '=' = 1) :
    splitEq l = [l.takeWhile (fun c => c != '='), (l.dropWhile (fun c => c != '=')).tail] := by
  induction l with
  | nil => simp at h
  | cons c cs ih =>
    by_cases hc : c = '='
    · subst hc
      have hcs : cs.count '=' = 0 := by simpa [List.count_cons] using h
      simp [splitEq, splitEq_count_zero hcs, List.takeWhile_cons, List.dropWhile_cons]
    · have hcs : cs.count '=' = 1 := by simpa [List.count_cons, hc] using h
      rcases hsp : splitEq cs with _ | ⟨h1, t⟩
      · exact absurd hsp (splitEq_ne_nil cs)
      · have hps := ih hcs
        rw [hsp] at hps
        simp only [splitEq, if_neg hc, hsp, List.takeWhile_cons, List.dropWhile_cons]
        have hcb : (c != '=') = true := by simp [hc]
        simp only [hcb, if_true]
        injection hps with h1eq trest
        simp [h1eq, trest]

/-- Claim C4: a properties line is stored exactly when it contains exactly
one equals sign, with the text before it as key and the text after it as
value; every other line is silently ignored. -/
theorem C4_line_parsing (l : Str) :
    parseLine l =
      if l.count '=' = 1 then
        some (l.takeWhile (fun c => c != '='), (l.dropWhile (fun c => c != '=')).tail)
      else none := by
  by_cases h : l.count '=' = 1
  · rw [if_pos h, parseLine, splitEq_count_one h]
  · rw [if_neg h]
    have hlen : (splitEq l).length ≠ 2 := by rw [length_splitEq]; omega
    unfold parseLine
    rcases hsp : splitEq l with _ | ⟨a, _ | ⟨b, _ | ⟨x, t⟩⟩⟩
    · rfl
    · rfl
    · rw [hsp] at hlen
      simp at hlen
    · rfl

/-- Parsing explicit lines is the insertion fold of the parsed pairs. -/
theorem getProperties_eq_foldIns (lines : List Str) :
    getProperties (some lines) = foldIns [] (lines.filterMap parseLine) := by
  suffices h : ∀ t : List (Str × Str),
      lines.foldl
        (fun t line =>
          match parseLine line with
          | some (k, v) => updTable t k v
          | none => t)
        t = foldIns t (lines.filterMap parseLine) from h []
  induction lines with
  | nil => intro t; rfl
  | cons l ls ih =>
    intro t
    rcases hp : parseLine l with _ | ⟨k, v⟩ <;>
      simp [List.foldl_cons, hp, List.filterMap_cons, ih, foldIns]

/-- The key list after a map assignment: unchanged for an existing key,
extended by the new key otherwise. -/
theorem map_fst_updTable (t : List (Str × Str)) (k v : Str) :
    (updTable t k v).map Prod.fst =
      if k ∈ t.map Prod.fst then t.map Prod.fst else t.map Prod.fst ++ [k] := by
  induction t with
  | nil => simp [updTable]
  | cons p rest ih =>
    obtain ⟨k0, v0⟩ := p
    by_cases hk : k0 = k
    · subst hk; simp [updTable]
    · by_cases hm : k ∈ rest.map Prod.fst <;>
        simp [updTable, hk, ih, hm, Ne.symm hk]

/-- Map assignments keep the key list duplicate-free. -/
theorem nodup_updTable {t : List (Str × Str)} (k v : Str)
    (h : (t.map Prod.fst).Nodup) : ((updTable t k v).map Prod.fst).Nodup := by
  rw [map_fst_updTable]
  by_cases hm : k ∈ t.map Prod.fst
  · simpa [hm]
  · simp [hm, List.nodup_append, h]

/-- The key set after a map assignment is the old key set plus the key. -/
theorem toFinset_map_fst_updTable (t : List (Str × Str)) (k v : Str) :
    ((updTable t k v).map Prod.fst).toFinset = insert k (t.map Prod.fst).toFinset := by
  rw [map_fst_updTable]
  by_cases hm : k ∈ t.map Prod.fst
  · simp [hm]
  · rw [if_neg hm]
    ext x
    simp [or_comm]

/-- The key set after inserting a pair list is the union of the key sets. -/
theorem toFinset_foldIns (ps : List (Str × Str)) :
    ∀ t, ((foldIns t ps).map Prod.fst).toFinset =
      (t.map Prod.fst).toFinset ∪ (ps.map Prod.fst).toFinset := by
  induction ps with
  | nil => intro t; simp [foldIns]
  | cons p pt ih =>
    intro t
    have hstep : foldIns t (p :: pt) = foldIns (updTable t p.1 p.2) pt := rfl
    rw [hstep, ih, toFinset_map_fst_updTable]
    ext x
    simp

/-- Inserting pairs keeps the key list duplicate-free. -/
theorem nodup_foldIns (ps : List (Str × Str)) :
    ∀ t, (t.map Prod.fst).Nodup → ((foldIns t ps).map Prod.fst).Nodup := by
  induction ps with
  | nil => intro t h; exact h
  | cons p pt ih => intro t h; exact ih _ (nodup_updTable p.1 p.2 h)

/-- The table size equals the number of distinct keys among the
well-formed lines. -/
theorem getProperties_length (lines : List Str) :
    (getProperties (some lines)).length =
      (((lines.filterMap parseLine).map Prod.fst).dedup).length := by
  rw [getProperties_eq_foldIns]
  have hnd := nodup_foldIns (lines.filterMap parseLine) [] (by simp)
  have hlm : (foldIns [] (lines.filterMap parseLine)).length
      = ((foldIns [] (lines.filterMap parseLine)).map Prod.fst).length := by
    simp
  rw [hlm, ← List.toFinset_card_of_nodup hnd, toFinset_foldIns, ← List.card_toFinset]
  simp

/-- Map lookup after a map assignment. -/
theorem tlookup_updTable (t : List (Str × Str)) (k v k0 : Str) :
    tlookup (updTable t k v) k0 = if k = k0 then some v else tlookup t k0 := by
  induction t with
  | nil => simp [updTable, tlookup]
  | cons p rest ih =>
    obtain ⟨k1, v1⟩ := p
    by_cases hk : k1 = k
    · subst hk
      by_cases hq : k1 = k0 <;> simp [updTable, tlookup, hq]
    · by_cases hq : k1 = k0
      · subst hq
        have : ¬ k = k1 := fun he => hk he.symm
        simp [updTable, tlookup, hk, this]
      · simp [updTable, tlookup, hk, hq, ih]

/-- Lookup after inserting a pair list: the value of the last pair with
that key, or the previous binding. -/
theorem tlookup_foldIns (ps : List (Str × Str)) :
    ∀ (t : List (Str × Str)) (k : Str),
      tlookup (foldIns t ps) k = (lastVal ps k).or (tlookup t k) := by
  induction ps using List.reverseRecOn with
  | nil => intro t k; simp [foldIns, lastVal, Option.or]
  | append_singleton ps p ih =>
    intro t k
    have hstep : foldIns t (ps ++ [p]) = updTable (foldIns t ps) p.1 p.2 := by
      simp [foldIns, List.foldl_append]
    rw [hstep, tlookup_updTable, ih]
    by_cases hk : p.1 = k
    · simp [lastVal, List.filter_append, hk, Option.or]
    · have hkb : (p.1 == k) = false := by simp [hk]
      simp [lastVal, List.filter_append, hkb, hk]

/-! ## Theorems: the walk accumulator -/

/-- Adding the fresh accumulator changes nothing. -/
theorem addStats_empty (st : Stats) : addStats st emptyStats = st := by
  cases st; simp [addStats, emptyStats]

/-- Accumulator addition is right-commutative. -/
theorem addStats_right_comm (st d1 d2 : Stats) :
    addStats (addStats st d1) d2 = addStats (addStats st d2) d1 := by
  cases st; cases d1; cases d2
  simp only [addStats, Stats.mk.injEq]
  refine ⟨?_, ?_, ?_, ?_, ?_, ?_, ?_⟩ <;> exact add_right_comm _ _ _

/-- Visiting one entry adds a contribution that depends only on the entry
(and the file system), not on the accumulator so far. -/
theorem stepEnt_decomp (fs : FS) (single : Bool) (startDate : ℤ) (st : Stats) (e : Ent) :
    stepEnt fs single startDate st e = addStats st (deltaOf fs single startDate e) := by
  unfold deltaOf stepEnt
  by_cases hd : e.isDir = true
  · simp [hd, addStats_empty]
  · by_cases hm : e.modTime > startDate
    · by_cases hr : isRRD e.path = true
      · by_cases hsm : single = true
        · by_cases hs : baseName e.path = stringsPropertiesName <;>
            rcases hnf : nodeFind e.path with _ | n <;>
              rcases hif : intfFind e.path with _ | i <;>
                cases st <;>
                  simp [hd, hm, hr, hsm, hs, hnf, hif, addStats, emptyStats, countStringMetrics]
        · by_cases hs : baseName e.path = stringsPropertiesName <;>
            rcases hnf : nodeFind e.path with _ | n <;>
              rcases hif : intfFind e.path with _ | i <;>
                cases st <;>
                  simp [hd, hm, hr, hsm, hs, hnf, hif, addStats, emptyStats, countStringMetrics]
      · by_cases hs : baseName e.path = stringsPropertiesName <;>
          cases st <;>
            simp [hd, hm, hr, hs, addStats, emptyStats, countStringMetrics]
    · simp [hd, hm, addStats_empty]

/-- The skip-on-error visit decomposes the same way. -/
theorem skipStep_decomp (fs : FS) (single : Bool) (startDate : ℤ) (st : Stats) (e : Ent) :
    skipStep fs single startDate st e
      = addStats st (skipStep fs single startDate emptyStats e) := by
  by_cases he : e.statErr = true
  · simp [skipStep, he, addStats_empty]
  · simp only [skipStep, he, if_false]
    exact stepEnt_decomp fs single startDate st e

/-- A fold of a right-commutative step is invariant under permutation of
the list. -/
theorem foldl_perm_of_comm {α β : Type} {f : β → α → β}
    (comm : ∀ (z : β) (x y : α), f (f z x) y = f (f z y) x) :
    ∀ {l1 l2 : List α}, l1.Perm l2 → ∀ b : β, l1.foldl f b = l2.foldl f b := by
  intro l1 l2 hp
  induction hp with
  | nil => intro b; rfl
  | cons x _ ih => intro b; simp only [List.foldl_cons]; exact ih _
  | swap x y l => intro b; simp only [List.foldl_cons]; rw [comm]
  | trans _ _ ih1 ih2 => intro b; rw [ih1, ih2]

/-- The five statistics contributed by one matched round-robin file. -/
theorem stepEnt_matched (fs : FS) (single : Bool) (startDate : ℤ) (st : Stats) (e : Ent)
    (hd : e.isDir = false) (hm : e.modTime > startDate) (hr : isRRD e.path = true) :
    (stepEnt fs single startDate st e).totalSizeInBytes = st.totalSizeInBytes + e.size ∧
      (stepEnt fs single startDate st e).numOfNumericMetrics
        = st.numOfNumericMetrics + countNumericMetrics fs e.path single ∧
      (stepEnt fs single startDate st e).numOfGroups
        = st.numOfGroups + (if single then 0 else 1) ∧
      (stepEnt fs single startDate st e).nodeMap = st.nodeMap + nodeOcc e.path ∧
      (stepEnt fs single startDate st e).interfaceMap
        = st.interfaceMap + intfOcc e.path := by
  unfold stepEnt nodeOcc intfOcc
  by_cases hsm : single = true <;>
    by_cases hs : baseName e.path = stringsPropertiesName <;>
      rcases hnf : nodeFind e.path with _ | n <;>
        rcases hif : intfFind e.path with _ | i <;>
          simp [hd, hm, hr, hsm, hs, hnf, hif]

/-- The size contribution of one visit: the byte size for a matched file,
nothing otherwise. -/
theorem stepEnt_size (fs : FS) (single : Bool) (startDate : ℤ) (st : Stats) (e : Ent) :
    (stepEnt fs single startDate st e).totalSizeInBytes
      = st.totalSizeInBytes + (if isMatch startDate e then e.size else 0) := by
  by_cases hd : e.isDir = true
  · simp [stepEnt, isMatch, hd]
  · by_cases hm : e.modTime > startDate
    · by_cases hr : isRRD e.path = true
      · have hms : isMatch startDate e = true := by simp [isMatch, hd, hm, hr]
        rw [(stepEnt_matched fs single startDate st e (by simpa using hd) hm hr).1, hms]
        simp
      · have hms : isMatch startDate e = false := by simp [isMatch, hr]
        by_cases hs : baseName e.path = stringsPropertiesName <;>
          simp [stepEnt, hd, hm, hr, hs, hms]
    · simp [stepEnt, isMatch, hd, hm]

/-- In single-metric mode no visit ever touches the group counter. -/
theorem stepEnt_groups_single (fs : FS) (startDate : ℤ) (st : Stats) (e : Ent) :
    (stepEnt fs true startDate st e).numOfGroups = st.numOfGroups := by
  by_cases hd : e.isDir = true
  · simp [stepEnt, hd]
  · by_cases hm : e.modTime > startDate
    · by_cases hr : isRRD e.path = true
      · exact (stepEnt_matched fs true startDate st e (by simpa using hd) hm hr).2.2.1.trans
          (by simp)
      · by_cases hs : baseName e.path = stringsPropertiesName <;>
          simp [stepEnt, hd, hm, hr, hs]
    · simp [stepEnt, hd, hm]

/-- Counting matching values by folding over the table equals the length
of its filtered form. -/
theorem foldl_count_eq_filter_length (r : Str) (t : List (Str × Str)) :
    ∀ n : ℕ, t.foldl (fun c kv => if kv.2 = r then c + 1 else c) n
      = n + (t.filter (fun kv => kv.2 == r)).length := by
  induction t with
  | nil => intro n; simp
  | cons kv rest ih =>
    intro n
    by_cases h : kv.2 = r
    · simp [List.foldl_cons, List.filter_cons, h, ih]
      omega
    · simp [List.foldl_cons, List.filter_cons, h, ih]

/-- In store-by-group mode the per-file numeric-metric count is the number
of sidecar entries whose value equals the derived resource name. -/
theorem countNumericMetrics_eq_spec (fs : FS) (p : Str) :
    countNumericMetrics fs p false = specNumericCount fs p := by
  unfold countNumericMetrics specNumericCount
  rw [if_neg Bool.false_ne_true, foldl_count_eq_filter_length]
  simp

/-- Visits in either order leave the same accumulator. -/
theorem skipStep_comm (fs : FS) (single : Bool) (startDate : ℤ) (z : Stats) (x y : Ent) :
    skipStep fs single startDate (skipStep fs single startDate z x) y
      = skipStep fs single startDate (skipStep fs single startDate z y) x := by
  rw [skipStep_decomp fs single startDate (skipStep fs single startDate z x) y,
    skipStep_decomp fs single startDate z x,
    skipStep_decomp fs single startDate (skipStep fs single startDate z y) x,
    skipStep_decomp fs single startDate z y]
  exact addStats_right_comm _ _ _

/-- Folding the skip-on-error visit accumulates exactly the sizes of the
matched round-robin files. -/
theorem foldl_skipStep_size (fs : FS) (single : Bool) (startDate : ℤ) :
    ∀ (es : List Ent) (st : Stats),
      (es.foldl (skipStep fs single startDate) st).totalSizeInBytes
        = st.totalSizeInBytes + ((es.filter (matchedRRD startDate)).map Ent.size).sum := by
  intro es
  induction es with
  | nil => intro st; simp
  | cons e es ih =>
    intro st
    rw [List.foldl_cons, ih]
    by_cases he : e.statErr = true
    · have hmf : matchedRRD startDate e = false := by simp [matchedRRD, he]
      simp [skipStep, he, List.filter_cons, hmf]
    · have hs : skipStep fs single startDate st e = stepEnt fs single startDate st e := by
        simp [skipStep, he]
      rw [hs, stepEnt_size]
      by_cases hmm : isMatch startDate e = true
      · have hmt : matchedRRD startDate e = true := by simp [matchedRRD, he, hmm]
        simp [List.filter_cons, hmt, hmm, add_assoc]
      · have hmf : matchedRRD startDate e = false := by simp [matchedRRD, hmm]
        simp [List.filter_cons, hmf, hmm]

/-- Folding the skip-on-error visit in single-metric mode never touches
the group counter. -/
theorem foldl_skipStep_groups_single (fs : FS) (startDate : ℤ) :
    ∀ (es : List Ent) (st : Stats),
      (es.foldl (skipStep fs true startDate) st).numOfGroups = st.numOfGroups := by
  intro es
  induction es with
  | nil => intro st; rfl
  | cons e es ih =>
    intro st
    rw [List.foldl_cons, ih]
    by_cases he : e.statErr = true
    · simp [skipStep, he]
    · simp [skipStep, he, stepEnt_groups_single]

/-! ## Theorems: the claims about the analysis sub-command -/

/-- Claim C3: the current `analyze` aborts the whole walk at the first
per-entry error (its callback returns the error to `filepath.Walk`),
while the `godirwalk` variant skips exactly the failing entry and still
reports the statistics of the remaining files. -/
theorem C3_per_entry_error_aborts_walk :
    analyzeCli fs3 false 0 [entBad, entGood] = .error entBad.path ∧
      walkSkip fs3 false 0 [entBad, entGood] = walkSkip fs3 false 0 [entGood] ∧
      (walkSkip fs3 false 0 [entGood]).totalSizeInBytes = 100 :=
  ⟨rfl, by decide, by decide⟩

/-- Claim C5: the aggregate statistics are identical for every visit order
of the entry set, and the reported total size is the sum of the per-file
byte sizes of the matched files. -/
theorem C5_order_independent_totals :
    (∀ (fs : FS) (single : Bool) (startDate : ℤ) (es1 es2 : List Ent),
        es1.Perm es2 → walkSkip fs single startDate es1 = walkSkip fs single startDate es2) ∧
      ∀ (fs : FS) (single : Bool) (startDate : ℤ) (es : List Ent),
        (walkSkip fs single startDate es).totalSizeInBytes
          = ((es.filter (matchedRRD startDate)).map Ent.size).sum := by
  constructor
  · intro fs single startDate es1 es2 hp
    exact foldl_perm_of_comm (skipStep_comm fs single startDate) hp emptyStats
  · intro fs single startDate es
    rw [walkSkip, foldl_skipStep_size]
    simp [emptyStats]

/-- Witness for claim C5 on a two-entry traversal in both orders. -/
theorem C5_order_independent_totals_witness :
    [entIfIn, entStr].Perm [entStr, entIfIn] ∧
      walkSkip fsW false 0 [entIfIn, entStr] = walkSkip fsW false 0 [entStr, entIfIn] :=
  ⟨List.Perm.swap entStr entIfIn [],
    C5_order_independent_totals.1 fsW false 0 _ _ (List.Perm.swap entStr entIfIn [])⟩

/-- Claim C6: in store-by-group mode a matched round-robin file adds to
the numeric-metric total exactly the number of entries of the sidecar
`ds.properties` table of its own directory whose value equals its base
name with the extension stripped; a missing sidecar contributes zero; the
two-line example of the specification contributes exactly 2. -/
theorem C6_store_by_group_counts :
    (∀ (fs : FS) (startDate : ℤ) (st : Stats) (e : Ent),
        e.isDir = false → e.modTime > startDate → isRRD e.path = true →
        (stepEnt fs false startDate st e).numOfNumericMetrics
          = st.numOfNumericMetrics + specNumericCount fs e.path) ∧
      (∀ (fs : FS) (p : Str), readFile fs (dsPath p) = none →
        countNumericMetrics fs p false = 0) ∧
      countNumericMetrics fsC6 entIfIn.path false = 2 := by
  refine ⟨?_, ?_, by decide⟩
  · intro fs startDate st e hd hm hr
    rw [(stepEnt_matched fs false startDate st e hd hm hr).2.1, countNumericMetrics_eq_spec]
  · intro fs p h
    unfold countNumericMetrics
    rw [if_neg Bool.false_ne_true, h]
    rfl

/-- Witness for claim C6 at the `ifIn.rrd` example entry. -/
theorem C6_store_by_group_counts_witness :
    entIfIn.isDir = false ∧ entIfIn.modTime > 0 ∧ isRRD entIfIn.path = true ∧
      (stepEnt fsC6 false 0 emptyStats entIfIn).numOfNumericMetrics
        = emptyStats.numOfNumericMetrics + specNumericCount fsC6 entIfIn.path :=
  ⟨rfl, by decide, by decide,
    C6_store_by_group_counts.1 fsC6 0 emptyStats entIfIn rfl (by decide) (by decide)⟩

/-- Claim C7: in single-metric mode every matched round-robin file adds
exactly 1 to the numeric-metric total, regardless of any sidecar content,
and the group counter stays 0 for the whole run. -/
theorem C7_single_metric_mode :
    (∀ (fs : FS) (startDate : ℤ) (st : Stats) (e : Ent),
        e.isDir = false → e.modTime > startDate → isRRD e.path = true →
        (stepEnt fs true startDate st e).numOfNumericMetrics
          = st.numOfNumericMetrics + 1) ∧
      ∀ (fs : FS) (startDate : ℤ) (es : List Ent),
        (walkSkip fs true startDate es).numOfGroups = 0 := by
  constructor
  · intro fs startDate st e hd hm hr
    simpa [countNumericMetrics] using (stepEnt_matched fs true startDate st e hd hm hr).2.1
  · intro fs startDate es
    rw [walkSkip, foldl_skipStep_groups_single]
    rfl

/-- Witness for claim C7, visiting a matched file with no sidecar. -/
theorem C7_single_metric_mode_witness :
    entGood.isDir = false ∧ entGood.modTime > 0 ∧ isRRD entGood.path = true ∧
      (stepEnt [] true 0 emptyStats entGood).numOfNumericMetrics
        = emptyStats.numOfNumericMetrics + 1 :=
  ⟨rfl, by decide, by decide,
    C7_single_metric_mode.1 [] 0 emptyStats entGood rfl (by decide) (by decide)⟩

/-- Claim C10: duplicate keys among well-formed lines collapse to one
table entry holding the last value seen, so the string-metric contribution
of a `strings.properties` file is the number of distinct keys among its
lines with exactly one equals sign, not the number of such lines. -/
theorem C10_duplicate_keys_collapse :
    (∀ lines : List Str,
        (getProperties (some lines)).length
            = (((lines.filterMap parseLine).map Prod.fst).dedup).length ∧
          ∀ k, tlookup (getProperties (some lines)) k = lastVal (lines.filterMap parseLine) k) ∧
      ∀ (fs : FS) (p : Str) (ls : List Str), readFile fs (stringsPath p) = some ls →
        countStringMetrics fs p = (((ls.filterMap parseLine).map Prod.fst).dedup).length := by
  constructor
  · intro lines
    refine ⟨getProperties_length lines, fun k => ?_⟩
    rw [getProperties_eq_foldIns, tlookup_foldIns]
    cases lastVal (lines.filterMap parseLine) k <;> simp [tlookup, Option.or]
  · intro fs p ls h
    unfold countStringMetrics
    rw [h, getProperties_length]

/-- Witness for claim C10 at a `strings.properties` file with a duplicated
key. -/
theorem C10_duplicate_keys_collapse_witness :
    readFile fsW (stringsPath entStr.path) = some entStr.lines ∧
      countStringMetrics fsW entStr.path
        = (((entStr.lines.filterMap parseLine).map Prod.fst).dedup).length :=
  ⟨by decide, C10_duplicate_keys_collapse.2 fsW entStr.path entStr.lines (by decide)⟩


/-- A literal always matches at the start of itself plus anything. -/
theorem litPre_append_self (p s : Str) : litPre p (p ++ s) = true := by
  induction p with
  | nil => rfl
  | cons a as ih => simp [litPre, ih]

/-- A literal that matches at the start of an appended list and fits
inside the first part already matches at the start of the first part. -/
theorem litPre_of_prefix_le {p a : Str} (b : Str) (hlen : p.length ≤ a.length)
    (h : litPre p (a ++ b) = true) : litPre p a = true := by
  induction p generalizing a with
  | nil => rfl
  | cons x xs ih =>
    cases a with
    | nil => simp at hlen
    | cons y ys =>
      simp only [List.cons_append, litPre, Bool.and_eq_true] at h ⊢
      exact ⟨h.1, ih (by simpa using hlen) h.2⟩

/-- The greedy run stops exactly at the first failing character. -/
theorem takeWhile_append_all {p : Char → Bool} {u : Str} (x : Char) (r : Str)
    (hu : ∀ c ∈ u, p c = true) (hx : p x = false) :
    (u ++ x :: r).takeWhile p = u := by
  induction u with
  | nil => simp [List.takeWhile_cons, hx]
  | cons c cs ih =>
    have hc : p c = true := hu c (by simp)
    have hcs : ∀ d ∈ cs, p d = true := fun d hd => hu d (by simp [hd])
    simp [List.takeWhile_cons, hc, ih hcs]

/-- The digit alternative of the node capture group matches a nonempty
digit run followed by the closing slash and captures exactly the run. -/
theorem tryNodeGroup_digits {num : Str} (rest : Str) (hne : num ≠ [])
    (hd : ∀ c ∈ num, digitc c = true) :
    tryNodeGroup (num ++ '/' :: rest) = some num := by
  have h1 : (num ++ '/' :: rest).takeWhile digitc = num :=
    takeWhile_append_all '/' rest hd (by decide)
  have h2 : (num ++ '/' :: rest).drop num.length = '/' :: rest := List.drop_left num _
  simp only [tryNodeGroup, h1, h2]
  simp [hne, headIs]

/-- An anchored node-pattern match right at the `snmp/` literal. -/
theorem tryNodeAt_hit (num rest : Str) (hne : num ≠ [])
    (hd : ∀ c ∈ num, digitc c = true) :
    tryNodeAt (snmpLit ++ (num ++ '/' :: rest)) = some num := by
  have hlen : snmpLit.length = 5 := by decide
  have hdrop : (snmpLit ++ (num ++ '/' :: rest)).drop 5 = num ++ '/' :: rest := by
    rw [← hlen, List.drop_left]
  simp only [tryNodeAt, litPre_append_self, if_true, hdrop]
  exact tryNodeGroup_digits rest hne hd

/-- A match anchored at the start is the leftmost match. -/
theorem nodeFind_of_some {l g : Str} (h : tryNodeAt l = some g) : nodeFind l = some g := by
  cases l with
  | nil =>
    have : tryNodeAt ([] : Str) = none := by decide
    rw [this] at h
    cases h
  | cons c cs => simp [nodeFind, h]

/-- When no match is anchored at the head, scanning continues behind it. -/
theorem nodeFind_of_none {c : Char} {cs : Str} (h : tryNodeAt (c :: cs) = none) :
    nodeFind (c :: cs) = nodeFind cs := by
  simp [nodeFind, h]

/-- On a path whose first `snmp/` occurrence is followed by a nonempty
numeric identifier and a slash, the node pattern captures exactly that
identifier. -/
theorem nodeFind_shape (pre num rest : Str) (hne : num ≠ [])
    (hd : ∀ c ∈ num, digitc c = true)
    (hclean : ∀ i < pre.length, litPre snmpLit ((pre ++ snmpLit).drop i) = false) :
    nodeFind (pre ++ (snmpLit ++ (num ++ '/' :: rest))) = some num := by
  induction pre with
  | nil =>
    rw [List.nil_append]
    exact nodeFind_of_some (tryNodeAt_hit num rest hne hd)
  | cons c pre ih =>
    have h0 : litPre snmpLit ((c :: pre) ++ snmpLit) = false := by
      simpa using hclean 0 (by simp)
    have hfail : litPre snmpLit ((c :: pre) ++ (snmpLit ++ (num ++ '/' :: rest))) = false := by
      rcases hv : litPre snmpLit ((c :: pre) ++ (snmpLit ++ (num ++ '/' :: rest))) with _ | _
      · rfl
      · exfalso
        have hassoc : (c :: pre) ++ (snmpLit ++ (num ++ '/' :: rest))
            = ((c :: pre) ++ snmpLit) ++ (num ++ '/' :: rest) := by
          simp [List.append_assoc]
        rw [hassoc] at hv
        have := litPre_of_prefix_le (num ++ '/' :: rest)
          (by simp [List.length_append]; omega) hv
        rw [h0] at this
        cases this
    have hstep : tryNodeAt (c :: (pre ++ (snmpLit ++ (num ++ '/' :: rest)))) = none := by
      rw [List.cons_append] at hfail
      simp [tryNodeAt, hfail]
    rw [List.cons_append, nodeFind_of_none hstep]
    refine ih fun i hi => ?_
    have := hclean (i + 1) (by simpa using Nat.succ_lt_succ hi)
    simpa using this


/-- An anchored interface-pattern match right at the `response/` literal. -/
theorem tryIntfAt_hit (addr rest : Str) (hne : addr ≠ [])
    (hd : ∀ c ∈ addr, intfc c = true) :
    tryIntfAt (respLit ++ (addr ++ '/' :: rest)) = some addr := by
  have hlen : respLit.length = 9 := by decide
  have hdrop : (respLit ++ (addr ++ '/' :: rest)).drop 9 = addr ++ '/' :: rest := by
    rw [← hlen, List.drop_left]
  have h1 : (addr ++ '/' :: rest).takeWhile intfc = addr :=
    takeWhile_append_all '/' rest hd (by decide)
  have h2 : (addr ++ '/' :: rest).drop addr.length = '/' :: rest := List.drop_left addr _
  simp only [tryIntfAt, litPre_append_self, if_true, hdrop, h1, h2]
  simp [hne, headIs]

/-- A match anchored at the start is the leftmost match. -/
theorem intfFind_of_some {l g : Str} (h : tryIntfAt l = some g) : intfFind l = some g := by
  cases l with
  | nil =>
    have hnone : tryIntfAt ([] : Str) = none := by decide
    rw [hnone] at h
    cases h
  | cons c cs => simp [intfFind, h]

/-- When no match is anchored at the head, scanning continues behind it. -/
theorem intfFind_of_none {c : Char} {cs : Str} (h : tryIntfAt (c :: cs) = none) :
    intfFind (c :: cs) = intfFind cs := by
  simp [intfFind, h]

/-- On a path whose first `response/` occurrence is followed by a nonempty
dotted-decimal run and a slash, the interface pattern captures exactly
that run. -/
theorem intfFind_shape (pre addr rest : Str) (hne : addr ≠ [])
    (hd : ∀ c ∈ addr, intfc c = true)
    (hclean : ∀ i < pre.length, litPre respLit ((pre ++ respLit).drop i) = false) :
    intfFind (pre ++ (respLit ++ (addr ++ '/' :: rest))) = some addr := by
  induction pre with
  | nil =>
    rw [List.nil_append]
    exact intfFind_of_some (tryIntfAt_hit addr rest hne hd)
  | cons c pre ih =>
    have h0 : litPre respLit ((c :: pre) ++ respLit) = false := by
      simpa using hclean 0 (by simp)
    have hfail : litPre respLit ((c :: pre) ++ (respLit ++ (addr ++ '/' :: rest))) = false := by
      rcases hv : litPre respLit ((c :: pre) ++ (respLit ++ (addr ++ '/' :: rest))) with _ | _
      · rfl
      · exfalso
        have hassoc : (c :: pre) ++ (respLit ++ (addr ++ '/' :: rest))
            = ((c :: pre) ++ respLit) ++ (addr ++ '/' :: rest) := by
          simp [List.append_assoc]
        rw [hassoc] at hv
        have hp := litPre_of_prefix_le (addr ++ '/' :: rest)
          (by simp [List.length_append]; omega) hv
        rw [h0] at hp
        cases hp
    have hstep : tryIntfAt (c :: (pre ++ (respLit ++ (addr ++ '/' :: rest)))) = none := by
      rw [List.cons_append] at hfail
      simp [tryIntfAt, hfail]
    rw [List.cons_append, intfFind_of_none hstep]
    refine ih fun i hi => ?_
    have hcl := hclean (i + 1) (by simpa using Nat.succ_lt_succ hi)
    simpa using hcl

/-- Claim C9: a matched round-robin file whose path contains `snmp/`
followed by a purely numeric identifier increments the node-occurrence
count for that identifier by exactly 1, and one whose path contains
`response/` followed by a dotted-decimal address increments the
interface-occurrence count for that address by exactly 1. -/
theorem C9_path_classification :
    (∀ (pre num rest : Str) (fs : FS) (single : Bool) (startDate : ℤ) (st : Stats) (e : Ent),
        e.path = pre ++ (snmpLit ++ (num ++ '/' :: rest)) →
        num ≠ [] → (∀ c ∈ num, digitc c = true) →
        (∀ i < pre.length, litPre snmpLit ((pre ++ snmpLit).drop i) = false) →
        e.isDir = false → e.modTime > startDate → isRRD e.path = true →
        (stepEnt fs single startDate st e).nodeMap.count num
          = st.nodeMap.count num + 1) ∧
      ∀ (pre addr rest : Str) (fs : FS) (single : Bool) (startDate : ℤ) (st : Stats) (e : Ent),
        e.path = pre ++ (respLit ++ (addr ++ '/' :: rest)) →
        addr ≠ [] → (∀ c ∈ addr, intfc c = true) →
        (∀ i < pre.length, litPre respLit ((pre ++ respLit).drop i) = false) →
        e.isDir = false → e.modTime > startDate → isRRD e.path = true →
        (stepEnt fs single startDate st e).interfaceMap.count addr
          = st.interfaceMap.count addr + 1 := by
  constructor
  · intro pre num rest fs single startDate st e hpath hne hd hclean hdir hm hr
    have hnf : nodeFind e.path = some num := by
      rw [hpath]
      exact nodeFind_shape pre num rest hne hd hclean
    rw [(stepEnt_matched fs single startDate st e hdir hm hr).2.2.2.1]
    have hocc : nodeOcc e.path = {num} := by simp [nodeOcc, hnf]
    rw [hocc, Multiset.count_add, Multiset.count_singleton_self]
  · intro pre addr rest fs single startDate st e hpath hne hd hclean hdir hm hr
    have hif : intfFind e.path = some addr := by
      rw [hpath]
      exact intfFind_shape pre addr rest hne hd hclean
    rw [(stepEnt_matched fs single startDate st e hdir hm hr).2.2.2.2]
    have hocc : intfOcc e.path = {addr} := by simp [intfOcc, hif]
    rw [hocc, Multiset.count_add, Multiset.count_singleton_self]

/-- Witness for claim C9 at the two example paths of the specification. -/
theorem C9_path_classification_witness :
    (entNode.path = "x/".toList ++ (snmpLit ++ ("123".toList ++ '/' :: "node.rrd".toList)) ∧
      "123".toList ≠ [] ∧ (∀ c ∈ "123".toList, digitc c = true) ∧
      (∀ i < ("x/".toList).length,
        litPre snmpLit (("x/".toList ++ snmpLit).drop i) = false) ∧
      entNode.isDir = false ∧ entNode.modTime > 0 ∧ isRRD entNode.path = true ∧
      (stepEnt [] false 0 emptyStats entNode).nodeMap.count ("123".toList)
        = emptyStats.nodeMap.count ("123".toList) + 1) ∧
    (entResp.path
        = "x/".toList ++ (respLit ++ ("10.0.0.1".toList ++ '/' :: "ifIn.rrd".toList)) ∧
      "10.0.0.1".toList ≠ [] ∧ (∀ c ∈ "10.0.0.1".toList, intfc c = true) ∧
      (∀ i < ("x/".toList).length,
        litPre respLit (("x/".toList ++ respLit).drop i) = false) ∧
      entResp.isDir = false ∧ entResp.modTime > 0 ∧ isRRD entResp.path = true ∧
      (stepEnt [] false 0 emptyStats entResp).interfaceMap.count ("10.0.0.1".toList)
        = emptyStats.interfaceMap.count ("10.0.0.1".toList) + 1) :=
  ⟨⟨by decide, by decide, by decide, by decide, rfl, by decide, by decide,
    C9_path_classification.1 ("x/".toList) ("123".toList) ("node.rrd".toList)
      [] false 0 emptyStats entNode (by decide) (by decide) (by decide) (by decide)
      rfl (by decide) (by decide)⟩,
  ⟨by decide, by decide, by decide, by decide, rfl, by decide, by decide,
    C9_path_classification.2 ("x/".toList) ("10.0.0.1".toList) ("ifIn.rrd".toList)
      [] false 0 emptyStats entResp (by decide) (by decide) (by decide) (by decide)
      rfl (by decide) (by decide)⟩⟩

end NewtsSizing
